import Mathlib

/-
Verification of the dependency-report extraction engine of
`github_actions_dependencies.py`.

The engine is embedded shallowly: strings become `List Char`, and each
Python `re` operation is translated into a hand-written matcher that
implements the leftmost / greedy semantics of the one concrete pattern the
source uses.  Python's unicode-aware character classes (`\s`, `\d`,
`str.lower`, `str.strip`) are modelled by their ASCII meaning, and the `$`
anchor (which in Python also matches just before one final newline) as
end-of-input; both are exact on the strings the engine feeds these
patterns, namely stripped newline-free cleaned lines and the characters
the log format produces.
-/

namespace GhDeps

/-- ASCII whitespace, the characters Python's `\s` and `str.strip()` act on
for ASCII input: space, tab, newline, carriage return, vertical tab, form
feed. -/
def isSpace (c : Char) : Bool :=
  c == ' ' || c == '\t' || c == '\n' || c == '\r' || c == '\x0b' || c == '\x0c'

/-- Python `str.strip()`: drop leading and trailing whitespace. -/
def strip (l : List Char) : List Char :=
  ((l.dropWhile isSpace).reverse.dropWhile isSpace).reverse

/-- Longest all-non-whitespace initial segment and the rest: one maximal
`\S+` run read greedily from the front. -/
def spanNS : List Char → List Char × List Char
  | [] => ([], [])
  | c :: cs =>
    if isSpace c then ([], c :: cs)
    else
      let p := spanNS cs
      (c :: p.1, p.2)

/-- Consume exactly `n` ASCII digits (`\d{n}`). -/
def expectDigits : Nat → List Char → Option (List Char)
  | 0, l => some l
  | _ + 1, [] => none
  | n + 1, c :: cs => if c.isDigit then expectDigits n cs else none

/-- Consume exactly the character `c`. -/
def expectCh (c : Char) : List Char → Option (List Char)
  | [] => none
  | d :: ds => if d = c then some ds else none

/-- Consume exactly the literal `pat`. -/
def expectLit : List Char → List Char → Option (List Char)
  | [], l => some l
  | _ :: _, [] => none
  | c :: cs, d :: ds => if d = c then expectLit cs ds else none

/-- Consume `\d+` followed later by a non-digit: at least one digit, then
the maximal digit run.  Greedy matching of `\d+` before a non-digit literal
(`Z`) is equivalent to taking the maximal run, because every shorter
backtracking candidate still ends at a digit. -/
def expectFracDigits : List Char → Option (List Char)
  | [] => none
  | c :: cs => if c.isDigit then some (cs.dropWhile Char.isDigit) else none

/-- The date part `\d{4}-\d{2}-\d{2}` of the timestamp. -/
def matchDate (l0 : List Char) : Option (List Char) :=
  (expectDigits 4 l0).bind fun l1 =>
  (expectCh '-' l1).bind fun l2 =>
  (expectDigits 2 l2).bind fun l3 =>
  (expectCh '-' l3).bind fun l4 =>
  expectDigits 2 l4

/-- The time part `T\d{2}:\d{2}:\d{2}` of the timestamp. -/
def matchTime (l0 : List Char) : Option (List Char) :=
  (expectCh 'T' l0).bind fun l1 =>
  (expectDigits 2 l1).bind fun l2 =>
  (expectCh ':' l2).bind fun l3 =>
  (expectDigits 2 l3).bind fun l4 =>
  (expectCh ':' l4).bind fun l5 =>
  expectDigits 2 l5

/-- The fractional-seconds part `\.\d+Z` of the timestamp. -/
def matchFrac (l0 : List Char) : Option (List Char) :=
  (expectCh '.' l0).bind fun l1 =>
  (expectFracDigits l1).bind fun l2 =>
  expectCh 'Z' l2

/-- The timestamp-plus-separator shape shared by every pattern of the
source: `\d{4}-\d{2}-\d{2}T\d{2}:\d{2}:\d{2}\.\d+Z -- ` (note the trailing
space).  Returns the rest of the input after the match. -/
def matchTimestamp (l0 : List Char) : Option (List Char) :=
  (matchDate l0).bind fun l1 =>
  (matchTime l1).bind fun l2 =>
  (matchFrac l2).bind fun l3 =>
  expectLit " -- ".toList l3

/-- After `ESC [`, consume `p*` then one final character satisfying `f`,
returning the rest.  In every use below `p` and `f` are disjoint, so
greedily preferring `p` is exactly the regex's greedy `[..]*` followed by a
final-character class. -/
def ansiParams (p f : Char → Bool) : List Char → Option (List Char)
  | [] => none
  | c :: cs => if p c then ansiParams p f cs else if f c then some cs else none

/-- One global `re.sub(r'\x1b\[<p>*<f>', '', line)` pass: scan left to
right, delete each non-overlapping occurrence, resume scanning after it
(the fuel only bounds recursion; `fuel = length` never runs out because
every step consumes at least one character). -/
def ansiSubF (p f : Char → Bool) : Nat → List Char → List Char
  | 0, l => l
  | _ + 1, [] => []
  | fuel + 1, c :: cs =>
    if c = '\x1b' then
      match cs with
      | '[' :: rest =>
        match ansiParams p f rest with
        | some r => ansiSubF p f fuel r
        | none => c :: ansiSubF p f fuel cs
      | _ => c :: ansiSubF p f fuel cs
    else c :: ansiSubF p f fuel cs

def ansiSub (p f : Char → Bool) (l : List Char) : List Char :=
  ansiSubF p f l.length l

/-- `re.sub(r'^\d{4}-\d{2}-\d{2}T\d{2}:\d{2}:\d{2}\.\d+Z -- ', '', line)`:
anchored, so at most the one leading occurrence is removed. -/
def stripTimestamp (l : List Char) : List Char :=
  match matchTimestamp l with
  | some r => r
  | none => l

/-- `re.sub(r'^--+\s*', '', line)`: a leading run of two or more dashes,
taken maximally, then maximal whitespace. -/
def stripDashes (l : List Char) : List Char :=
  match l with
  | '-' :: '-' :: rest => (rest.dropWhile (fun c => c == '-')).dropWhile isSpace
  | _ => l

/-- Parameter characters `[0-9;]` of the general ANSI pattern. -/
def isParamA (c : Char) : Bool := c.isDigit || c == ';'

/-- Final characters `[ABCD]` of the cursor-movement pattern. -/
def isABCD (c : Char) : Bool := c == 'A' || c == 'B' || c == 'C' || c == 'D'

/-- `_clean_line`: strip, drop a leading timestamp, delete the four ANSI
escape shapes in the source's order, drop a leading dash bullet, strip
again. -/
def cleanLine (l : List Char) : List Char :=
  let s1 := strip l
  let s2 := stripTimestamp s1
  let s3 := ansiSub isParamA Char.isAlpha s2
  let s4 := ansiSub (fun _ => false) (fun c => c == 'm') s3
  let s5 := ansiSub (fun _ => false) (fun c => c == 'K') s4
  let s6 := ansiSub Char.isDigit isABCD s5
  strip (stripDashes s6)

/-- Does `l` begin with `pat`? -/
def leadMatch : List Char → List Char → Bool
  | [], _ => true
  | _ :: _, [] => false
  | c :: cs, d :: ds => d == c && leadMatch cs ds

/-- Python's `pat in s` substring test. -/
def hasSub (pat : List Char) : List Char → Bool
  | [] => pat.isEmpty
  | c :: cs => leadMatch pat (c :: cs) || hasSub pat cs

/-- Python `str.lower()` on ASCII. -/
def lowerChars (l : List Char) : List Char := l.map Char.toLower

/-- Leftmost match of `(\S+)\s+(\S+)\s*$` (the `found_externally` entry
pattern), returning the two groups.  Anchoring at the end makes the match
unique: group 2 is the final token (trailing whitespace allowed after it),
group 1 the maximal token before the separating whitespace; the leftmost
rule extends group 1 to its full run. -/
def searchLastTwoWS (l : List Char) : Option (List Char × List Char) :=
  match spanNS (l.reverse.dropWhile isSpace) with
  | ([], _) => none
  | (b, r1) =>
    match r1 with
    | [] => none
    | c :: r2 =>
      if isSpace c then
        match spanNS (r2.dropWhile isSpace) with
        | ([], _) => none
        | (a, _) => some (a.reverse, b.reverse)
      else none

/-- Leftmost match of `(\S+) (\S+)$` (the re-parse pattern of the BUILT
LOCALLY branch).  End-anchored, no trailing whitespace tolerated: group 2
is the final token reaching the end, preceded by one literal space, group 1
the maximal token before that space. -/
def searchSimple (l : List Char) : Option (List Char × List Char) :=
  match spanNS l.reverse with
  | ([], _) => none
  | (b, r1) =>
    match r1 with
    | [] => none
    | c :: r2 =>
      if c = ' ' then
        match spanNS r2 with
        | ([], _) => none
        | (a, _) => some (a.reverse, b.reverse)
      else none

/-- Try `(\S+) \(([^)]+)\)$` anchored at the head of this suffix: one
maximal token, a literal space and `(`, then the whole remainder must be a
nonempty `)`-free segment closed by the final `)` of the line. -/
def tryTooOldAt (l : List Char) : Option (List Char × List Char) :=
  match spanNS l with
  | ([], _) => none
  | (w, r) =>
    match r with
    | ' ' :: '(' :: r2 =>
      match r2.reverse with
      | ')' :: innerRev =>
        if innerRev ≠ [] ∧ innerRev.all (fun c => !(c == ')')) then
          some (w, innerRev.reverse)
        else none
      | _ => none
    | _ => none

/-- Leftmost match of `(\S+) \(([^)]+)\)$` (the `too_old` entry pattern):
try each suffix in order; the first anchored success is the leftmost
match. -/
def searchTooOld : List Char → Option (List Char × List Char)
  | [] => none
  | c :: cs =>
    match tryTooOldAt (c :: cs) with
    | some r => some r
    | none => searchTooOld cs

/-- The literal tail of the BUILT LOCALLY pattern. -/
def litBL : List Char := " BUILT LOCALLY)".toList

/-- Does `(\S+) (\S+)  \((\S+) BUILT LOCALLY\)$` match?  The end anchor
forces the shape from the right: the literal tail, immediately before it a
maximal non-space run that must start with `(` and hold at least one more
character (the `(` needs a space on its left, so it can only be the run's
first character), then exactly two spaces, a nonempty token, one literal
space, and a non-space character ending the first token. -/
def matchesBuiltLocally (l : List Char) : Bool :=
  match expectLit litBL.reverse l.reverse with
  | none => false
  | some r1 =>
    match spanNS r1 with
    | (run, r2) =>
      match run.reverse with
      | '(' :: _ :: _ =>
        match r2 with
        | sp1 :: sp2 :: r3 =>
          if sp1 = ' ' ∧ sp2 = ' ' then
            match spanNS r3 with
            | ([], _) => false
            | (_, r4) =>
              match r4 with
              | d :: r5 =>
                if d = ' ' then
                  match r5 with
                  | e :: _ => !(isSpace e)
                  | [] => false
                else false
              | [] => false
          else false
        | _ => false
      | _ => false

/-- The four dependency categories tracked by `_parse_dependencies`. -/
inductive Cat where
  | found_externally
  | too_old
  | built_locally
  | not_found
deriving DecidableEq, Repr

/-- One parsed dependency line: the `{"package": ..., "version": ...}`
dict, version `None` becoming `none`. -/
structure Entry where
  package : List Char
  version : Option (List Char)
deriving DecidableEq, Repr

/-- The four ordered entry lists of the result dict. -/
structure Deps where
  found_externally : List Entry
  too_old : List Entry
  built_locally : List Entry
  not_found : List Entry
deriving DecidableEq, Repr

def emptyDeps : Deps := ⟨[], [], [], []⟩

def appendCat (d : Deps) : Cat → Entry → Deps
  | Cat.found_externally, e => { d with found_externally := d.found_externally ++ [e] }
  | Cat.too_old, e => { d with too_old := d.too_old ++ [e] }
  | Cat.built_locally, e => { d with built_locally := d.built_locally ++ [e] }
  | Cat.not_found, e => { d with not_found := d.not_found ++ [e] }

/-- The loop state of `_parse_dependencies`: the `current_section` cursor
and the binding of the `version_match` variable, which Python keeps across
iterations (`none` models both "not yet bound" and a failed search; it is
read before being assigned only in the `built_locally` state, which is
reachable only after an assignment). -/
structure PState where
  cur : Option Cat
  lastMatch : Option (List Char × List Char)
deriving DecidableEq, Repr

def hdrFE : List Char := "the following dependencies found externally:".toList
def hdrTO : List Char := "the following dependencies were found but were too old:".toList
def hdrNF : List Char := "the following dependencies were not found".toList
def depsWord : List Char := "dependencies".toList

/-- Build the appended entry from the current `version_match` binding, the
fallback being the whole cleaned line with an absent version. -/
def mkEntry (vm : Option (List Char × List Char)) (cl : List Char) : Entry :=
  match vm with
  | some g => { package := g.1, version := some g.2 }
  | none => { package := cl, version := none }

/-- The per-category regex dispatch of the data block (source lines
229-240): which category receives the entry and what `version_match`
becomes.  In the `built_locally` state no branch runs and the stale
binding is reused; in the `not_found` state a failed BUILT LOCALLY probe
leaves `version_match = None`. -/
def dataStep (cat : Cat) (lm : Option (List Char × List Char)) (cl : List Char) :
    Cat × Option (List Char × List Char) :=
  match cat with
  | Cat.found_externally => (Cat.found_externally, searchLastTwoWS cl)
  | Cat.too_old => (Cat.too_old, searchTooOld cl)
  | Cat.not_found =>
    if matchesBuiltLocally cl then (Cat.built_locally, searchSimple cl)
    else (Cat.not_found, none)
  | Cat.built_locally => (Cat.built_locally, lm)

/-- One iteration of the `_parse_dependencies` loop on an already-cleaned
line: skip blanks, recognize the three header phrases, skip stray lines
holding "dependencies", otherwise run the data block and append exactly
one entry. -/
def stepClean (st : PState) (deps : Deps) (cl : List Char) : PState × Deps :=
  if cl = [] then (st, deps)
  else if hasSub hdrFE (lowerChars cl) then
    ({ st with cur := some Cat.found_externally }, deps)
  else if hasSub hdrTO (lowerChars cl) then
    ({ st with cur := some Cat.too_old }, deps)
  else if hasSub hdrNF (lowerChars cl) then
    ({ st with cur := some Cat.not_found }, deps)
  else
    match st.cur with
    | none => (st, deps)
    | some cat =>
      if hasSub depsWord (lowerChars cl) then (st, deps)
      else
        let r := dataStep cat st.lastMatch cl
        (⟨some r.1, r.2⟩, appendCat deps r.1 (mkEntry r.2 cl))

/-- Python `section.split('\n')`. -/
def splitLines : List Char → List (List Char)
  | [] => [[]]
  | '\n' :: rest => [] :: splitLines rest
  | c :: rest =>
    match splitLines rest with
    | h :: t => (c :: h) :: t
    | [] => [[c]]

/-- `_parse_dependencies`: fold the loop over the section's lines, cleaning
each line first. -/
def parseDependencies (sect : List Char) : Deps :=
  ((splitLines sect).foldl
    (fun p line => stepClean p.1 p.2 (cleanLine line))
    ((⟨none, none⟩ : PState), emptyDeps)).2

/-- The 73-character `=` row of the banner regexes. -/
def eqRow : List Char := List.replicate 73 '='

def colorOpen : List Char := "\x1b[1;33m".toList
def resetSeq : List Char := "\x1b[m".toList
def depReportLit : List Char := "= Dependency report".toList

/-- One decorated `=`-row banner line: timestamp, color-open escape, the
73-character row, reset escape. -/
def matchEqLine (l0 : List Char) : Option (List Char) :=
  (matchTimestamp l0).bind fun l1 =>
  (expectLit colorOpen l1).bind fun l2 =>
  (expectLit eqRow l2).bind fun l3 =>
  expectLit resetSeq l3

/-- The middle banner line: timestamp, color-open escape, the literal
`= Dependency report`, then `\s*=\s*` and the reset escape.  Greedy `\s*`
before a non-whitespace literal is the maximal whitespace run. -/
def matchMidLine (l0 : List Char) : Option (List Char) :=
  (matchTimestamp l0).bind fun l1 =>
  (expectLit colorOpen l1).bind fun l2 =>
  (expectLit depReportLit l2).bind fun l3 =>
  (expectCh '=' (l3.dropWhile isSpace)).bind fun l4 =>
  expectLit resetSeq (l4.dropWhile isSpace)

/-- Try the three-line start banner regex anchored here, returning the rest
of the log after the match (`start_match.end()`). -/
def tryStartAt (l0 : List Char) : Option (List Char) :=
  (matchEqLine l0).bind fun l1 =>
  (expectCh '\n' l1).bind fun l2 =>
  (matchMidLine l2).bind fun l3 =>
  (expectCh '\n' l3).bind fun l4 =>
  matchEqLine l4

/-- Try the one-line end banner regex anchored here. -/
def tryEndAt (l0 : List Char) : Option (List Char) :=
  matchEqLine l0

/-- `re.search(start_pattern, log)`: leftmost match; returns the suffix
after the match end. -/
def searchStart : List Char → Option (List Char)
  | [] => none
  | c :: cs =>
    match tryStartAt (c :: cs) with
    | some r => some r
    | none => searchStart cs

/-- `re.search(end_pattern, rest)`: returns the part of `rest` strictly
before the leftmost match (`log[start_pos:end_pos]`). -/
def searchEndBefore : List Char → Option (List Char)
  | [] => none
  | c :: cs =>
    if (tryEndAt (c :: cs)).isSome then some []
    else (searchEndBefore cs).map (fun p => c :: p)

/-- The value `parse_dependency_section` returns: either the single-error
dict or the four-list dependency dict. -/
inductive PResult where
  | err (msg : String)
  | ok (deps : Deps)
deriving DecidableEq, Repr

def startErr : String := "Dependency report section not found"
def endErr : String := "End of dependency report section not found"

/-- `parse_dependency_section`: locate the banner-delimited section, strip
it, and parse it; report which boundary was missing otherwise. -/
def parseDependencySection (log : List Char) : PResult :=
  match searchStart log with
  | none => PResult.err startErr
  | some rest =>
    match searchEndBefore rest with
    | none => PResult.err endErr
    | some pre => PResult.ok (parseDependencies (strip pre))

/-- All characters are non-whitespace (`\S`). -/
abbrev allNS (l : List Char) : Prop := ∀ c ∈ l, isSpace c = false

/-- All characters are whitespace (`\s`). -/
abbrev allSP (l : List Char) : Prop := ∀ c ∈ l, isSpace c = true

/-- Empty, or ending in a whitespace character: what precedes a maximal
`\S+` run. -/
abbrev endsSpace (l : List Char) : Prop :=
  l = [] ∨ ∃ l0 d, l = l0 ++ [d] ∧ isSpace d = true

/-- The two tokens every `(\S+) (\S+)$` re-parse of a BUILT LOCALLY line
yields. -/
def bTok : List Char := "BUILT".toList

def lTok : List Char := "LOCALLY)".toList

/-- A data line of the shape the BUILT LOCALLY regex accepts:
`name version  (tag BUILT LOCALLY)`. -/
def blLine (name ver tag : List Char) : List Char :=
  name ++ [' '] ++ ver ++ [' ', ' ', '('] ++ tag ++ litBL

end GhDeps

namespace GhDeps

theorem expectLit_self (p : List Char) : ∀ r, expectLit p (p ++ r) = some r := by
  induction p with
  | nil => intro r; simp [expectLit]
  | cons c cs ih => intro r; simp [expectLit, ih r]

theorem spanNS_append (a : List Char) :
    ∀ r, allNS a → (r = [] ∨ ∃ c t, r = c :: t ∧ isSpace c = true) →
      spanNS (a ++ r) = (a, r) := by
  induction a with
  | nil =>
    intro r _ hr
    rcases hr with rfl | ⟨c, t, rfl, hc⟩
    · simp [spanNS]
    · simp [spanNS, hc]
  | cons x xs ih =>
    intro r ha hr
    have hx : isSpace x = false := ha x (by simp)
    have hxs : allNS xs := fun c hc => ha c (by simp [hc])
    simp [spanNS, hx, ih r hxs hr]

theorem spanNS_all (a : List Char) (ha : allNS a) : spanNS a = (a, []) := by
  have := spanNS_append a [] ha (Or.inl rfl)
  simpa using this

theorem dropSpace_append (w : List Char) :
    ∀ r, allSP w → (w ++ r).dropWhile isSpace = r.dropWhile isSpace := by
  induction w with
  | nil => intro r _; simp
  | cons x xs ih =>
    intro r hw
    have hx : isSpace x = true := hw x (by simp)
    have hxs : allSP xs := fun c hc => hw c (by simp [hc])
    simp [List.dropWhile, hx, ih r hxs]

theorem dropSpace_nonspace {c : Char} (t : List Char) (hc : isSpace c = false) :
    (c :: t).dropWhile isSpace = c :: t := by
  simp [List.dropWhile, hc]

theorem leadMatch_iff (p : List Char) : ∀ l, leadMatch p l = true ↔ ∃ t, l = p ++ t := by
  induction p with
  | nil => intro l; simp [leadMatch]
  | cons c cs ih =>
    intro l
    cases l with
    | nil => simp [leadMatch]
    | cons d ds =>
      simp only [leadMatch, Bool.and_eq_true, beq_iff_eq, ih ds, List.cons_append]
      constructor
      · rintro ⟨rfl, t, rfl⟩
        exact ⟨t, rfl⟩
      · rintro ⟨t, h⟩
        injection h with h1 h2
        exact ⟨h1, t, h2⟩

theorem hasSub_iff (p : List Char) : ∀ l, hasSub p l = true ↔ ∃ u v, l = u ++ p ++ v := by
  intro l
  induction l with
  | nil =>
    simp only [hasSub, List.isEmpty_iff]
    constructor
    · rintro rfl
      exact ⟨[], [], rfl⟩
    · rintro ⟨u, v, h⟩
      rcases List.append_eq_nil.mp h.symm with ⟨h1, h2⟩
      exact (List.append_eq_nil.mp h1).2
  | cons c cs ih =>
    simp only [hasSub, Bool.or_eq_true, leadMatch_iff, ih]
    constructor
    · rintro (⟨t, h⟩ | ⟨u, v, rfl⟩)
      · exact ⟨[], t, by simpa using h⟩
      · exact ⟨c :: u, v, rfl⟩
    · rintro ⟨u, v, h⟩
      cases u with
      | nil => exact Or.inl ⟨v, by simpa using h⟩
      | cons x xs =>
        injection h with h1 h2
        subst h1
        exact Or.inr ⟨xs, v, h2⟩

theorem hasSub_trans {p q l : List Char} (hpq : hasSub p q = true)
    (hql : hasSub q l = true) : hasSub p l = true := by
  rcases (hasSub_iff q l).mp hql with ⟨s, t, rfl⟩
  rcases (hasSub_iff p q).mp hpq with ⟨u, v, rfl⟩
  exact (hasSub_iff p _).mpr ⟨s ++ u, v ++ t, by simp⟩

theorem noHdrFE {L : List Char} (h : hasSub depsWord L = false) :
    hasSub hdrFE L = false := by
  cases h2 : hasSub hdrFE L with
  | false => rfl
  | true =>
    have := hasSub_trans (p := depsWord) (q := hdrFE) (by decide) h2
    simp [this] at h

theorem noHdrTO {L : List Char} (h : hasSub depsWord L = false) :
    hasSub hdrTO L = false := by
  cases h2 : hasSub hdrTO L with
  | false => rfl
  | true =>
    have := hasSub_trans (p := depsWord) (q := hdrTO) (by decide) h2
    simp [this] at h

theorem noHdrNF {L : List Char} (h : hasSub depsWord L = false) :
    hasSub hdrNF L = false := by
  cases h2 : hasSub hdrNF L with
  | false => rfl
  | true =>
    have := hasSub_trans (p := depsWord) (q := hdrNF) (by decide) h2
    simp [this] at h

theorem dropWhile_head_false {p : Char → Bool} :
    ∀ {l : List Char} {c : Char} {t : List Char},
      l.dropWhile p = c :: t → p c = false := by
  intro l
  induction l with
  | nil => intro c t h; simp [List.dropWhile] at h
  | cons x xs ih =>
    intro c t h
    cases hx : p x with
    | true =>
      simp only [List.dropWhile, hx] at h
      exact ih h
    | false =>
      simp only [List.dropWhile, hx] at h
      injection h with h1 _
      subst h1
      exact hx

theorem dropWhile_suffix (p : Char → Bool) (l : List Char) :
    ∃ w, l = w ++ l.dropWhile p ∧ ∀ c ∈ w, p c = true := by
  induction l with
  | nil => exact ⟨[], by simp, by simp⟩
  | cons x xs ih =>
    cases hx : p x with
    | true =>
      rcases ih with ⟨w, hw, hall⟩
      refine ⟨x :: w, ?_, ?_⟩
      · simp only [List.dropWhile, hx]
        simpa using hw
      · intro c hc
        rcases List.mem_cons.mp hc with rfl | hc
        · exact hx
        · exact hall c hc
    | false =>
      refine ⟨[], ?_, by simp⟩
      simp only [List.dropWhile, hx]
      simp

theorem getLast?_append_right {s t : List Char} (h : t ≠ []) :
    (s ++ t).getLast? = t.getLast? := by
  rw [List.getLast?_append]
  cases ht : t.getLast? with
  | some c => simp
  | none => exact absurd (List.getLast?_eq_none_iff.mp ht) h

theorem strip_eq_self (l : List Char)
    (h1 : ∀ c, l.head? = some c → isSpace c = false)
    (h2 : ∀ c, l.getLast? = some c → isSpace c = false) : strip l = l := by
  unfold strip
  have e1 : l.dropWhile isSpace = l := by
    cases l with
    | nil => simp
    | cons x xs =>
      have := h1 x rfl
      simp [List.dropWhile, this]
  rw [e1]
  have e2 : l.reverse.dropWhile isSpace = l.reverse := by
    cases hr : l.reverse with
    | nil => simp
    | cons x xs =>
      have hx : l.getLast? = some x := by
        rw [← List.head?_reverse, hr]
        rfl
      have := h2 x hx
      simp [List.dropWhile, this]
  rw [e2, List.reverse_reverse]

theorem strip_getLast {l : List Char} {c : Char}
    (h : (strip l).getLast? = some c) : isSpace c = false := by
  unfold strip at h
  rw [List.getLast?_reverse] at h
  cases hd : ((l.dropWhile isSpace).reverse.dropWhile isSpace) with
  | nil => rw [hd] at h; simp at h
  | cons x xs =>
    rw [hd] at h
    injection h with h1
    subst h1
    exact dropWhile_head_false hd

theorem strip_head {l : List Char} {c : Char}
    (h : (strip l).head? = some c) : isSpace c = false := by
  unfold strip at h
  rw [List.head?_reverse] at h
  rcases dropWhile_suffix isSpace ((l.dropWhile isSpace).reverse) with ⟨w, hw, _⟩
  have hAne : (l.dropWhile isSpace).reverse.dropWhile isSpace ≠ [] := by
    intro h0
    rw [h0] at h
    simp at h
  have hBlast : ((l.dropWhile isSpace).reverse.dropWhile isSpace).getLast?
      = (l.dropWhile isSpace).reverse.getLast? := by
    conv_rhs => rw [hw]
    exact (getLast?_append_right hAne).symm
  rw [hBlast, List.getLast?_reverse] at h
  cases hd : l.dropWhile isSpace with
  | nil => rw [hd] at h; simp at h
  | cons x xs =>
    rw [hd] at h
    injection h with h1
    subst h1
    exact dropWhile_head_false hd

theorem strip_strip (l : List Char) : strip (strip l) = strip l :=
  strip_eq_self (strip l) (fun _ h => strip_head h) (fun _ h => strip_getLast h)

theorem cleanLine_strip (l : List Char) : strip (cleanLine l) = cleanLine l := by
  unfold cleanLine
  exact strip_strip _

theorem ansiSubF_no_esc (p f : Char → Bool) :
    ∀ (n : Nat) (l : List Char), '\x1b' ∉ l → ansiSubF p f n l = l := by
  intro n
  induction n with
  | zero => intro l _; rfl
  | succ m ih =>
    intro l hl
    cases l with
    | nil => rfl
    | cons c cs =>
      have hc : ¬(c = '\x1b') := by
        intro h
        exact hl (by simp [h])
      have hcs : '\x1b' ∉ cs := fun h => hl (by simp [h])
      simp [ansiSubF, hc, ih cs hcs]

theorem ansiSub_no_esc (p f : Char → Bool) {l : List Char}
    (h : '\x1b' ∉ l) : ansiSub p f l = l :=
  ansiSubF_no_esc p f l.length l h

theorem allNS_reverse {l : List Char} (h : allNS l) : allNS l.reverse :=
  fun c hc => h c (List.mem_reverse.mp hc)

theorem reverse_cons_of_ne {l : List Char} (h : l ≠ []) :
    ∃ y ys, l.reverse = y :: ys := by
  cases hl : l.reverse with
  | nil => exact absurd (List.reverse_eq_nil_iff.mp hl) h
  | cons y ys => exact ⟨y, ys, rfl⟩

/-- The unique match of `(\S+) (\S+)$` on a line that ends with token `a`,
one space, token `b`, where whatever precedes ends in whitespace (or is
empty, keeping the first group maximal). -/
theorem searchSimple_decomp (init a b : List Char)
    (ha : a ≠ []) (hans : allNS a) (hb : b ≠ []) (hbns : allNS b)
    (hinit : endsSpace init) :
    searchSimple (init ++ a ++ ' ' :: b) = some (a, b) := by
  obtain ⟨y, ys, hbr⟩ := reverse_cons_of_ne hb
  obtain ⟨z, zs, har⟩ := reverse_cons_of_ne ha
  have hrev : (init ++ a ++ ' ' :: b).reverse
      = b.reverse ++ ' ' :: (a.reverse ++ init.reverse) := by
    simp [List.reverse_append]
  have hspan1 : spanNS ((init ++ a ++ ' ' :: b).reverse)
      = (b.reverse, ' ' :: (a.reverse ++ init.reverse)) := by
    rw [hrev]
    exact spanNS_append _ _ (allNS_reverse hbns) (Or.inr ⟨' ', _, rfl, by decide⟩)
  have hspan2 : spanNS (a.reverse ++ init.reverse) = (a.reverse, init.reverse) := by
    refine spanNS_append _ _ (allNS_reverse hans) ?_
    rcases hinit with rfl | ⟨l0, d, rfl, hd⟩
    · exact Or.inl (by simp)
    · exact Or.inr ⟨d, l0.reverse, by simp, hd⟩
  rw [har] at hspan2
  rw [hbr, har] at hspan1
  unfold searchSimple
  rw [hspan1]
  simp only [hspan2]
  rw [← har, ← hbr]
  simp

/-- The unique match of `(\S+)\s+(\S+)\s*$` on a line ending with token
`a`, nonempty whitespace `w`, token `b` (the cleaned line is stripped, so
no trailing whitespace follows `b`). -/
theorem searchLastTwoWS_decomp (pre a w b : List Char)
    (ha : a ≠ []) (hans : allNS a) (hw : w ≠ []) (hwsp : allSP w)
    (hb : b ≠ []) (hbns : allNS b) (hpre : endsSpace pre) :
    searchLastTwoWS (pre ++ a ++ w ++ b) = some (a, b) := by
  obtain ⟨y, ys, hbr⟩ := reverse_cons_of_ne hb
  obtain ⟨z, zs, har⟩ := reverse_cons_of_ne ha
  obtain ⟨u, us, hwr⟩ := reverse_cons_of_ne hw
  have hy : isSpace y = false := hbns y (List.mem_reverse.mp (by rw [hbr]; simp))
  have hz : isSpace z = false := hans z (List.mem_reverse.mp (by rw [har]; simp))
  have hu : isSpace u = true := hwsp u (List.mem_reverse.mp (by rw [hwr]; simp))
  have hus : allSP us := fun c hc =>
    hwsp c (List.mem_reverse.mp (by rw [hwr]; simp [hc]))
  have hys : allNS (y :: ys) := by rw [← hbr]; exact allNS_reverse hbns
  have hzs : allNS (z :: zs) := by rw [← har]; exact allNS_reverse hans
  have hrev : (pre ++ a ++ w ++ b).reverse
      = y :: (ys ++ (u :: (us ++ (z :: (zs ++ pre.reverse))))) := by
    simp [List.reverse_append, hbr, hwr, har]
  have h1 : ((pre ++ a ++ w ++ b).reverse).dropWhile isSpace
      = y :: (ys ++ (u :: (us ++ (z :: (zs ++ pre.reverse))))) := by
    rw [hrev]
    exact dropSpace_nonspace _ hy
  have h2 : spanNS (y :: (ys ++ (u :: (us ++ (z :: (zs ++ pre.reverse))))))
      = (y :: ys, u :: (us ++ (z :: (zs ++ pre.reverse)))) := by
    have := spanNS_append (y :: ys) (u :: (us ++ (z :: (zs ++ pre.reverse))))
      hys (Or.inr ⟨u, _, rfl, hu⟩)
    simpa using this
  have h3 : ((us ++ (z :: (zs ++ pre.reverse)))).dropWhile isSpace
      = z :: (zs ++ pre.reverse) := by
    rw [dropSpace_append us _ hus]
    exact dropSpace_nonspace _ hz
  have h4 : spanNS (z :: (zs ++ pre.reverse)) = (z :: zs, pre.reverse) := by
    have hr : pre.reverse = [] ∨ ∃ c t, pre.reverse = c :: t ∧ isSpace c = true := by
      rcases hpre with rfl | ⟨l0, d, rfl, hd⟩
      · exact Or.inl (by simp)
      · exact Or.inr ⟨d, l0.reverse, by simp, hd⟩
    have := spanNS_append (z :: zs) pre.reverse hzs hr
    simpa using this
  unfold searchLastTwoWS
  rw [h1]
  simp only [h2, hu, h3, h4]
  rw [← har, ← hbr]
  simp

/-- `(\S+)\s+(\S+)\s*$` has no match on a line that is one single token:
no whitespace separator exists. -/
theorem searchLastTwoWS_single (cl : List Char) (hne : cl ≠ [])
    (hns : allNS cl) : searchLastTwoWS cl = none := by
  obtain ⟨y, ys, hr⟩ := reverse_cons_of_ne hne
  have hy : isSpace y = false := hns y (List.mem_reverse.mp (by rw [hr]; simp))
  have h1 : cl.reverse.dropWhile isSpace = y :: ys := by
    rw [hr]
    exact dropSpace_nonspace _ hy
  have h2 : spanNS (y :: ys) = (y :: ys, []) := by
    have : allNS (y :: ys) := by rw [← hr]; exact allNS_reverse hns
    exact spanNS_all _ this
  unfold searchLastTwoWS
  rw [h1]
  simp only [h2]

/-- The BUILT LOCALLY pattern matches every line of the shape
`name version  (tag BUILT LOCALLY)` with nonempty whitespace-free
tokens. -/
theorem matchesBL_shape (name ver tag : List Char)
    (hn : name ≠ []) (hnns : allNS name) (hv : ver ≠ []) (hvns : allNS ver)
    (ht : tag ≠ []) (htns : allNS tag) :
    matchesBuiltLocally (blLine name ver tag) = true := by
  obtain ⟨n1, ns, hnr⟩ := reverse_cons_of_ne hn
  obtain ⟨v1, vs, hvr⟩ := reverse_cons_of_ne hv
  have hn1 : isSpace n1 = false := hnns n1 (List.mem_reverse.mp (by rw [hnr]; simp))
  have hrev : (blLine name ver tag).reverse
      = litBL.reverse
        ++ (tag.reverse ++ ('(' :: ' ' :: ' ' :: (ver.reverse ++ (' ' :: name.reverse)))) := by
    simp [blLine, List.reverse_append]
  have hlit : expectLit litBL.reverse ((blLine name ver tag).reverse)
      = some (tag.reverse ++ ('(' :: ' ' :: ' ' :: (ver.reverse ++ (' ' :: name.reverse)))) := by
    rw [hrev]
    exact expectLit_self _ _
  have hall : allNS (tag.reverse ++ ['(']) := by
    intro c hc
    rcases List.mem_append.mp hc with hc | hc
    · exact (allNS_reverse htns) c hc
    · simp at hc
      subst hc
      decide
  have hsp1 : spanNS (tag.reverse ++ ('(' :: ' ' :: ' ' :: (ver.reverse ++ (' ' :: name.reverse))))
      = (tag.reverse ++ ['('], ' ' :: ' ' :: (ver.reverse ++ (' ' :: name.reverse))) := by
    have := spanNS_append (tag.reverse ++ ['('])
      (' ' :: ' ' :: (ver.reverse ++ (' ' :: name.reverse)))
      hall (Or.inr ⟨' ', _, rfl, by decide⟩)
    simpa [List.append_assoc] using this
  have hsp2 : spanNS (ver.reverse ++ (' ' :: name.reverse))
      = (ver.reverse, ' ' :: name.reverse) := by
    exact spanNS_append _ _ (allNS_reverse hvns) (Or.inr ⟨' ', _, rfl, by decide⟩)
  have hrr : (tag.reverse ++ ['(']).reverse = '(' :: tag := by simp
  unfold matchesBuiltLocally
  rw [hlit]
  simp only [hsp1, hrr]
  cases tag with
  | nil => exact absurd rfl ht
  | cons c0 c0s =>
    have hsp2b : spanNS (v1 :: (vs ++ ' ' :: n1 :: ns)) = (v1 :: vs, ' ' :: n1 :: ns) := by
      have h0 := hsp2
      rw [hvr, hnr] at h0
      simpa using h0
    simp [hsp2b, hvr, hnr, hn1]

/-- The data block of `_parse_dependencies` on a nonempty cleaned line that
is no header and does not contain "dependencies": dispatch on the current
category and append exactly one entry. -/
theorem stepClean_data (cat : Cat) (lm : Option (List Char × List Char))
    (deps : Deps) (cl : List Char) (hne : cl ≠ [])
    (hdw : hasSub depsWord (lowerChars cl) = false) :
    stepClean ⟨some cat, lm⟩ deps cl
      = (⟨some (dataStep cat lm cl).1, (dataStep cat lm cl).2⟩,
         appendCat deps (dataStep cat lm cl).1 (mkEntry (dataStep cat lm cl).2 cl)) := by
  unfold stepClean
  rw [if_neg hne]
  simp only [noHdrFE hdw, noHdrTO hdw, noHdrNF hdw, hdw]
  simp

theorem stepClean_fe (lm : Option (List Char × List Char)) (deps : Deps)
    (cl : List Char) (hne : cl ≠ [])
    (hdw : hasSub depsWord (lowerChars cl) = false) :
    stepClean ⟨some Cat.found_externally, lm⟩ deps cl
      = (⟨some Cat.found_externally, searchLastTwoWS cl⟩,
         appendCat deps Cat.found_externally (mkEntry (searchLastTwoWS cl) cl)) := by
  rw [stepClean_data _ _ _ _ hne hdw]
  rfl

theorem stepClean_nf_true (lm : Option (List Char × List Char)) (deps : Deps)
    (cl : List Char) (hne : cl ≠ [])
    (hdw : hasSub depsWord (lowerChars cl) = false)
    (hbl : matchesBuiltLocally cl = true) :
    stepClean ⟨some Cat.not_found, lm⟩ deps cl
      = (⟨some Cat.built_locally, searchSimple cl⟩,
         appendCat deps Cat.built_locally (mkEntry (searchSimple cl) cl)) := by
  rw [stepClean_data _ _ _ _ hne hdw]
  simp [dataStep, hbl]

theorem stepClean_nf_false (lm : Option (List Char × List Char)) (deps : Deps)
    (cl : List Char) (hne : cl ≠ [])
    (hdw : hasSub depsWord (lowerChars cl) = false)
    (hbl : matchesBuiltLocally cl = false) :
    stepClean ⟨some Cat.not_found, lm⟩ deps cl
      = (⟨some Cat.not_found, none⟩, appendCat deps Cat.not_found ⟨cl, none⟩) := by
  rw [stepClean_data _ _ _ _ hne hdw]
  simp [dataStep, hbl, mkEntry]

theorem stepClean_bl (lm : Option (List Char × List Char)) (deps : Deps)
    (cl : List Char) (hne : cl ≠ [])
    (hdw : hasSub depsWord (lowerChars cl) = false) :
    stepClean ⟨some Cat.built_locally, lm⟩ deps cl
      = (⟨some Cat.built_locally, lm⟩,
         appendCat deps Cat.built_locally (mkEntry lm cl)) := by
  rw [stepClean_data _ _ _ _ hne hdw]
  rfl

theorem stepClean_bl_stale (g : List Char × List Char) (deps : Deps)
    (cl : List Char) (hne : cl ≠ [])
    (hdw : hasSub depsWord (lowerChars cl) = false) :
    stepClean ⟨some Cat.built_locally, some g⟩ deps cl
      = (⟨some Cat.built_locally, some g⟩,
         appendCat deps Cat.built_locally ⟨g.1, some g.2⟩) := by
  rw [stepClean_bl _ _ _ hne hdw]
  rfl

theorem blLine_ne_nil {name ver tag : List Char} (hn : name ≠ []) :
    blLine name ver tag ≠ [] := by
  cases name with
  | nil => exact absurd rfl hn
  | cons x xs => simp [blLine]

/-- The re-parse `(\S+) (\S+)$` of any BUILT LOCALLY line: the line ends
with `... BUILT LOCALLY)`, so the leftmost end-anchored match always
captures `BUILT` and `LOCALLY)`. -/
theorem searchSimple_blLine (name ver tag : List Char) :
    searchSimple (blLine name ver tag) = some (bTok, lTok) := by
  have hlit2 : litBL = ' ' :: (bTok ++ ' ' :: lTok) := by decide
  have hshape : blLine name ver tag
      = (name ++ [' '] ++ ver ++ [' ', ' ', '('] ++ tag ++ [' ']) ++ bTok ++ ' ' :: lTok := by
    rw [blLine, hlit2]
    simp [List.append_assoc]
  rw [hshape]
  exact searchSimple_decomp _ _ _ (by decide) (by decide) (by decide) (by decide)
    (Or.inr ⟨name ++ [' '] ++ ver ++ [' ', ' ', '('] ++ tag, ' ',
      by simp [List.append_assoc], by decide⟩)

/-- Processing a BUILT LOCALLY line in the `not_found` state: the cursor
flips to `built_locally` and the entry appended there is the re-parse
result `(BUILT, LOCALLY))`. -/
theorem stepClean_reclassify (name ver tag : List Char)
    (vm : Option (List Char × List Char)) (deps : Deps)
    (hn : name ≠ []) (hnns : allNS name) (hv : ver ≠ []) (hvns : allNS ver)
    (ht : tag ≠ []) (htns : allNS tag)
    (hdw : hasSub depsWord (lowerChars (blLine name ver tag)) = false) :
    stepClean ⟨some Cat.not_found, vm⟩ deps (blLine name ver tag)
      = (⟨some Cat.built_locally, some (bTok, lTok)⟩,
         appendCat deps Cat.built_locally ⟨bTok, some lTok⟩) := by
  rw [stepClean_nf_true vm deps _ (blLine_ne_nil hn) hdw
    (matchesBL_shape name ver tag hn hnns hv hvns ht htns)]
  rw [searchSimple_blLine]
  rfl

/-- In the `built_locally` state with a stored match `g`, folding the loop
over any list of nonempty data lines (none containing "dependencies")
leaves the state untouched and appends one copy of `g`'s entry per line:
no line's own content is consulted. -/
theorem foldl_bl_stale (g : List Char × List Char) :
    ∀ (ls : List (List Char)) (deps : Deps),
      (∀ cl ∈ ls, cl ≠ [] ∧ hasSub depsWord (lowerChars cl) = false) →
      ls.foldl (fun p cl => stepClean p.1 p.2 cl)
          ((⟨some Cat.built_locally, some g⟩ : PState), deps)
        = (⟨some Cat.built_locally, some g⟩,
           { deps with built_locally := deps.built_locally
               ++ List.replicate ls.length ⟨g.1, some g.2⟩ }) := by
  intro ls
  induction ls with
  | nil => intro deps _; simp
  | cons cl ls ih =>
    intro deps hall
    have h1 := hall cl (by simp)
    have hrest : ∀ c ∈ ls, c ≠ [] ∧ hasSub depsWord (lowerChars c) = false :=
      fun c hc => hall c (by simp [hc])
    rw [List.foldl_cons]
    simp only []
    rw [stepClean_bl_stale g deps cl h1.1 h1.2]
    rw [ih _ hrest]
    simp [appendCat, List.replicate_succ]

theorem cleanLine_fixed (t : List Char) (h0 : strip t = t) (h1 : '\x1b' ∉ t)
    (h2 : stripTimestamp t = t) (h3 : stripDashes t = t) : cleanLine t = t := by
  unfold cleanLine
  dsimp only
  rw [h0, h2, ansiSub_no_esc _ _ h1, ansiSub_no_esc _ _ h1, ansiSub_no_esc _ _ h1,
      ansiSub_no_esc _ _ h1, h3, h0]

end GhDeps

namespace GhDeps

set_option maxRecDepth 40000

/-- The literal section text of claim C1 (and of the spec's worked
example). -/
def c1Section : List Char :=
  ("Dependencies found externally:\n  cmake 3.28.1\n  boost 1.84.0\nDependencies not found:\n  missing_package\nDependencies not found (BUILT LOCALLY):\n  openexr 3.2.0").toList

/-- The result claim C1 says the parser produces on `c1Section`. -/
def c1Claimed : Deps :=
  ⟨[⟨"cmake".toList, some "3.28.1".toList⟩, ⟨"boost".toList, some "1.84.0".toList⟩],
   [],
   [⟨"openexr".toList, some "3.2.0".toList⟩],
   [⟨"missing_package".toList, none⟩]⟩

/-- Claim C1: on the literal section with `Dependencies found externally:`
style headers the parser is claimed to return the populated four-list
result.  The code, however, only recognizes headers containing
`the following dependencies ...`, so no category is ever activated and the
parser returns four empty lists -- contradicting both the claim and the
repository's own test `test_timestamp_parsing.py`, which asserts nonempty
lists for this very header style.  This theorem evaluates the code at the
failing input. -/
theorem claim_C1_code_eval :
    parseDependencies c1Section = emptyDeps ∧ parseDependencies c1Section ≠ c1Claimed :=
  ⟨by decide, by decide⟩

def tsSample : List Char := "2025-07-04T08:10:03.4957678Z".toList
def sepLit : List Char := " -- ".toList
def midDec : List Char := "= Dependency report =".toList

/-- A start banner carrying exactly the decoration the source's regex
hard-codes (`ESC[1;33m` ... `ESC[m`). -/
def startBannerDec : List Char :=
  tsSample ++ sepLit ++ colorOpen ++ eqRow ++ resetSeq ++ '\n'
    :: (tsSample ++ sepLit ++ colorOpen ++ midDec ++ resetSeq)
    ++ '\n' :: (tsSample ++ sepLit ++ colorOpen ++ eqRow ++ resetSeq)

def endBannerDec : List Char := tsSample ++ sepLit ++ colorOpen ++ eqRow ++ resetSeq

/-- A full log with the exactly-decorated banner, a one-line section, and a
closing banner. -/
def c2DecoratedLog : List Char := startBannerDec ++ "\nhello\n".toList ++ endBannerDec

/-- The same banner with no escape sequences at all. -/
def startBannerPlain : List Char :=
  tsSample ++ sepLit ++ eqRow ++ '\n' :: (tsSample ++ sepLit ++ midDec)
    ++ '\n' :: (tsSample ++ sepLit ++ eqRow)

def c2PlainLog : List Char :=
  startBannerPlain ++ "\nhello\n".toList ++ (tsSample ++ sepLit ++ eqRow)

/-- The same banner decorated with a different color code (`ESC[1;31m`). -/
def colorRed : List Char := "\x1b[1;31m".toList

def startBannerRed : List Char :=
  tsSample ++ sepLit ++ colorRed ++ eqRow ++ resetSeq ++ '\n'
    :: (tsSample ++ sepLit ++ colorRed ++ midDec ++ resetSeq)
    ++ '\n' :: (tsSample ++ sepLit ++ colorRed ++ eqRow ++ resetSeq)

def c2RedLog : List Char :=
  startBannerRed ++ "\nhello\n".toList ++ (tsSample ++ sepLit ++ colorRed ++ eqRow ++ resetSeq)

/-- Claim C2 counterexample: a log containing the three-line banner with
timestamps but no escape sequences.  The claim says the locator still finds
the start boundary; the code reports the section as not found, because its
pattern hard-codes the `ESC[1;33m`/`ESC[m` decoration. -/
theorem claim_C2_counterexample :
    parseDependencySection c2PlainLog = PResult.err startErr := by decide

/-- Claim C2 (amended): boundary detection requires exactly the decoration
`ESC[1;33m` before and `ESC[m` after each banner line's content.  With that
decoration the section is located; with a different color code the start is
reported missing. -/
theorem claim_C2_theorem :
    parseDependencySection c2DecoratedLog = PResult.ok emptyDeps ∧
    parseDependencySection c2RedLog = PResult.err startErr :=
  ⟨by decide, by decide⟩

def c3Line : List Char := "openexr 3.2.0  (OPENEXR BUILT LOCALLY)".toList

/-- Claim C3 counterexample: the BUILT LOCALLY line
`openexr 3.2.0  (OPENEXR BUILT LOCALLY)` processed under `not_found` files
an entry under `built_locally`, but the entry is `(BUILT, LOCALLY))` -- the
last two tokens captured by the re-parse `(\S+) (\S+)$` -- not
`(openexr, 3.2.0)` as the claim states. -/
theorem claim_C3_counterexample :
    (stepClean ⟨some Cat.not_found, none⟩ emptyDeps c3Line).2.built_locally
        = [⟨bTok, some lTok⟩] ∧ bTok ≠ "openexr".toList :=
  ⟨by decide, by decide⟩

/-- Claim C3 (amended): a cleaned data line of the shape
`name version  (TAG BUILT LOCALLY)` processed under `not_found` switches
the category to `built_locally` and files, under `built_locally`, the entry
produced by re-parsing the same line with `(\S+) (\S+)$` -- whose leftmost
end-anchored match on any such line is package `BUILT`, version `LOCALLY)`
(the line's last two tokens), not the line's name and version. -/
theorem claim_C3_theorem (name ver tag : List Char)
    (vm : Option (List Char × List Char)) (deps : Deps)
    (hn : name ≠ []) (hnns : allNS name) (hv : ver ≠ []) (hvns : allNS ver)
    (ht : tag ≠ []) (htns : allNS tag)
    (hdw : hasSub depsWord (lowerChars (blLine name ver tag)) = false) :
    stepClean ⟨some Cat.not_found, vm⟩ deps (blLine name ver tag)
      = (⟨some Cat.built_locally, some (bTok, lTok)⟩,
         appendCat deps Cat.built_locally ⟨bTok, some lTok⟩) :=
  stepClean_reclassify name ver tag vm deps hn hnns hv hvns ht htns hdw

/-- Claim C3 witness: the amended theorem at the concrete line
`openexr 3.2.0  (OPENEXR BUILT LOCALLY)`. -/
theorem claim_C3_witness :
    stepClean ⟨some Cat.not_found, none⟩ emptyDeps
        (blLine "openexr".toList "3.2.0".toList "OPENEXR".toList)
      = (⟨some Cat.built_locally, some (bTok, lTok)⟩,
         appendCat emptyDeps Cat.built_locally ⟨bTok, some lTok⟩) :=
  claim_C3_theorem "openexr".toList "3.2.0".toList "OPENEXR".toList none emptyDeps
    (by decide) (by decide) (by decide) (by decide) (by decide) (by decide) (by decide)

/-- Claim C4 counterexample: the plain line `cmake 3.28.1` processed under
`not_found` is recorded whole with an absent version, not as
`(cmake, 3.28.1)`: after a failed BUILT LOCALLY probe the code never tries
the plain `name version` shape. -/
theorem claim_C4_counterexample :
    (stepClean ⟨some Cat.not_found, none⟩ emptyDeps "cmake 3.28.1".toList).2.not_found
        = [⟨"cmake 3.28.1".toList, none⟩] ∧
      (⟨"cmake 3.28.1".toList, none⟩ : Entry) ≠ ⟨"cmake".toList, some "3.28.1".toList⟩ :=
  ⟨by decide, by decide⟩

/-- Claim C4 (amended): a cleaned data line processed under `not_found`
that does not match the BUILT LOCALLY shape is always recorded as the whole
cleaned line with an absent version, still under `not_found`; the plain
`name version` shape is never probed in this state. -/
theorem claim_C4_theorem (vm : Option (List Char × List Char)) (deps : Deps)
    (cl : List Char) (hne : cl ≠ [])
    (hdw : hasSub depsWord (lowerChars cl) = false)
    (hbl : matchesBuiltLocally cl = false) :
    stepClean ⟨some Cat.not_found, vm⟩ deps cl
      = (⟨some Cat.not_found, none⟩, appendCat deps Cat.not_found ⟨cl, none⟩) :=
  stepClean_nf_false vm deps cl hne hdw hbl

/-- Claim C4 witness: the amended theorem at the concrete line
`cmake 3.28.1`. -/
theorem claim_C4_witness :
    stepClean ⟨some Cat.not_found, none⟩ emptyDeps "cmake 3.28.1".toList
      = (⟨some Cat.not_found, none⟩,
         appendCat emptyDeps Cat.not_found ⟨"cmake 3.28.1".toList, none⟩) :=
  claim_C4_theorem none emptyDeps "cmake 3.28.1".toList (by decide) (by decide) (by decide)

/-- Claim C5: after a reclassifying BUILT LOCALLY line, every subsequent
data line (nonempty, not containing "dependencies") is appended to
`built_locally` using the capture groups of the reclassifying line's match:
each such line contributes the same entry `(BUILT, LOCALLY))` regardless of
its own content, the state (cursor and stored match) never changes, and no
pattern is probed against those lines. -/
theorem claim_C5_theorem (name ver tag : List Char)
    (vm : Option (List Char × List Char)) (deps : Deps) (ls : List (List Char))
    (hn : name ≠ []) (hnns : allNS name) (hv : ver ≠ []) (hvns : allNS ver)
    (ht : tag ≠ []) (htns : allNS tag)
    (hdw0 : hasSub depsWord (lowerChars (blLine name ver tag)) = false)
    (hls : ∀ cl ∈ ls, cl ≠ [] ∧ hasSub depsWord (lowerChars cl) = false) :
    ls.foldl (fun p cl => stepClean p.1 p.2 cl)
        (stepClean ⟨some Cat.not_found, vm⟩ deps (blLine name ver tag))
      = (⟨some Cat.built_locally, some (bTok, lTok)⟩,
         { appendCat deps Cat.built_locally ⟨bTok, some lTok⟩ with
             built_locally :=
               (appendCat deps Cat.built_locally ⟨bTok, some lTok⟩).built_locally
                 ++ List.replicate ls.length ⟨bTok, some lTok⟩ }) := by
  rw [stepClean_reclassify name ver tag vm deps hn hnns hv hvns ht htns hdw0]
  exact foldl_bl_stale (bTok, lTok) ls _ hls

/-- Claim C5 witness: after the concrete reclassifying line, the unrelated
lines `zlib 1.2.13` and `rev b91ab10a` are both filed under
`built_locally` as `(BUILT, LOCALLY))`. -/
theorem claim_C5_witness :
    ["zlib 1.2.13".toList, "rev b91ab10a".toList].foldl
        (fun p cl => stepClean p.1 p.2 cl)
        (stepClean ⟨some Cat.not_found, none⟩ emptyDeps
          (blLine "openexr".toList "3.2.0".toList "OPENEXR".toList))
      = (⟨some Cat.built_locally, some (bTok, lTok)⟩,
         { appendCat emptyDeps Cat.built_locally ⟨bTok, some lTok⟩ with
             built_locally :=
               (appendCat emptyDeps Cat.built_locally ⟨bTok, some lTok⟩).built_locally
                 ++ List.replicate 2 ⟨bTok, some lTok⟩ }) :=
  claim_C5_theorem "openexr".toList "3.2.0".toList "OPENEXR".toList none emptyDeps
    ["zlib 1.2.13".toList, "rev b91ab10a".toList] (by decide) (by decide) (by decide)
    (by decide) (by decide) (by decide) (by decide) (by decide)

/-- Claim C6: if the start banner regex has no match, `parse` returns only
the start error; if it matches but no end banner follows, only the end
error; and every result is exactly one of an error or a four-list
dependency mapping (the two are mutually exclusive by the shape of the
returned value). -/
theorem claim_C6_theorem :
    (∀ log : List Char, searchStart log = none →
        parseDependencySection log = PResult.err startErr) ∧
    (∀ log rest : List Char, searchStart log = some rest →
        searchEndBefore rest = none →
        parseDependencySection log = PResult.err endErr) ∧
    (∀ log : List Char, (∃ m, parseDependencySection log = PResult.err m) ∨
        (∃ d, parseDependencySection log = PResult.ok d)) := by
  refine ⟨?_, ?_, ?_⟩
  · intro log h
    simp [parseDependencySection, h]
  · intro log rest h1 h2
    simp [parseDependencySection, h1, h2]
  · intro log
    cases h : parseDependencySection log with
    | err m => exact Or.inl ⟨m, rfl⟩
    | ok d => exact Or.inr ⟨d, rfl⟩

def c6NoBanner : List Char := "hello world".toList

def c6NoEnd : List Char := startBannerDec ++ "\nmore output".toList

/-- Claim C6 witness: a log without the banner yields the start error; a
log with the decorated banner but nothing closing it yields the end
error. -/
theorem claim_C6_witness :
    parseDependencySection c6NoBanner = PResult.err startErr ∧
    parseDependencySection c6NoEnd = PResult.err endErr :=
  ⟨claim_C6_theorem.1 c6NoBanner (by decide),
   claim_C6_theorem.2.1 c6NoEnd "\nmore output".toList (by decide) (by decide)⟩

/-- Claim C7: once the cursor is `built_locally`, processing any line that
matches none of the three header phrases leaves the cursor at
`built_locally`: it never reverts on its own. -/
theorem claim_C7_theorem (lm : Option (List Char × List Char)) (deps : Deps)
    (cl : List Char)
    (h1 : hasSub hdrFE (lowerChars cl) = false)
    (h2 : hasSub hdrTO (lowerChars cl) = false)
    (h3 : hasSub hdrNF (lowerChars cl) = false) :
    (stepClean ⟨some Cat.built_locally, lm⟩ deps cl).1.cur
      = some Cat.built_locally := by
  by_cases hcl : cl = []
  · simp [stepClean, hcl]
  · by_cases hdw : hasSub depsWord (lowerChars cl) = true
    · simp [stepClean, hcl, h1, h2, h3, hdw]
    · have hdw2 : hasSub depsWord (lowerChars cl) = false := by
        simpa using hdw
      rw [stepClean_data _ _ _ _ hcl hdw2]
      rfl

/-- Claim C7 witness: the concrete non-header line `anything 1.0`. -/
theorem claim_C7_witness :
    (stepClean ⟨some Cat.built_locally, none⟩ emptyDeps "anything 1.0".toList).1.cur
      = some Cat.built_locally :=
  claim_C7_theorem none emptyDeps "anything 1.0".toList (by decide) (by decide) (by decide)

/-- Claim C8: under `found_externally`, a cleaned data line with at least
two whitespace-separated tokens is recorded as (second-to-last token, last
token); a one-token line is recorded as (token, absent version). -/
theorem claim_C8_theorem :
    (∀ pre a w b : List Char, ∀ vm : Option (List Char × List Char), ∀ deps : Deps,
      a ≠ [] → allNS a → w ≠ [] → allSP w → b ≠ [] → allNS b → endsSpace pre →
      hasSub depsWord (lowerChars (pre ++ a ++ w ++ b)) = false →
      stepClean ⟨some Cat.found_externally, vm⟩ deps (pre ++ a ++ w ++ b)
        = (⟨some Cat.found_externally, some (a, b)⟩,
           appendCat deps Cat.found_externally ⟨a, some b⟩)) ∧
    (∀ cl : List Char, ∀ vm : Option (List Char × List Char), ∀ deps : Deps,
      cl ≠ [] → allNS cl → hasSub depsWord (lowerChars cl) = false →
      stepClean ⟨some Cat.found_externally, vm⟩ deps cl
        = (⟨some Cat.found_externally, none⟩,
           appendCat deps Cat.found_externally ⟨cl, none⟩)) := by
  constructor
  · intro pre a w b vm deps ha hans hw hwsp hb hbns hpre hdw
    have hne : pre ++ a ++ w ++ b ≠ [] := by
      intro h
      exact hb (List.append_eq_nil.mp h).2
    rw [stepClean_fe vm deps _ hne hdw,
        searchLastTwoWS_decomp pre a w b ha hans hw hwsp hb hbns hpre]
    rfl
  · intro cl vm deps hne hns hdw
    rw [stepClean_fe vm deps _ hne hdw, searchLastTwoWS_single cl hne hns]
    rfl

/-- Claim C8 witness: the two-token line `cmake 3.28.1` and the one-token
line `zlib`. -/
theorem claim_C8_witness :
    stepClean ⟨some Cat.found_externally, none⟩ emptyDeps
        ([] ++ "cmake".toList ++ " ".toList ++ "3.28.1".toList)
      = (⟨some Cat.found_externally, some ("cmake".toList, "3.28.1".toList)⟩,
         appendCat emptyDeps Cat.found_externally ⟨"cmake".toList, some "3.28.1".toList⟩) ∧
    stepClean ⟨some Cat.found_externally, none⟩ emptyDeps "zlib".toList
      = (⟨some Cat.found_externally, none⟩,
         appendCat emptyDeps Cat.found_externally ⟨"zlib".toList, none⟩) :=
  ⟨claim_C8_theorem.1 [] "cmake".toList " ".toList "3.28.1".toList none emptyDeps
      (by decide) (by decide) (by decide) (by decide) (by decide) (by decide)
      (Or.inl rfl) (by decide),
   claim_C8_theorem.2 "zlib".toList none emptyDeps (by decide) (by decide) (by decide)⟩

/-- Claim C9 counterexample: cleaning is not idempotent.  Removing the
leading dash bullet of `-- -- foo` exposes a second bullet, which only a
second cleaning pass removes: `clean("-- -- foo") = "-- foo"` but
`clean("-- foo") = "foo"`. -/
theorem claim_C9_counterexample :
    cleanLine (cleanLine "-- -- foo".toList) ≠ cleanLine "-- -- foo".toList := by decide

/-- Claim C9 (amended): cleaning is idempotent on every line whose cleaned
form contains no escape character and does not itself begin with a
timestamp prefix or a dash bullet; in general a cleaning pass can expose a
new leading timestamp or bullet that a second pass removes. -/
theorem claim_C9_theorem (s : List Char)
    (h1 : '\x1b' ∉ cleanLine s)
    (h2 : stripTimestamp (cleanLine s) = cleanLine s)
    (h3 : stripDashes (cleanLine s) = cleanLine s) :
    cleanLine (cleanLine s) = cleanLine s :=
  cleanLine_fixed (cleanLine s) (cleanLine_strip s) h1 h2 h3

/-- Claim C9 witness: the amended theorem at the raw line
`  cmake 3.28.1  `. -/
theorem claim_C9_witness :
    cleanLine (cleanLine "  cmake 3.28.1  ".toList) = cleanLine "  cmake 3.28.1  ".toList :=
  claim_C9_theorem "  cmake 3.28.1  ".toList (by decide) (by decide) (by decide)

/-- Claim C10: with a category active, every nonempty cleaned line not
containing "dependencies" appends exactly one entry to exactly one
category (the parser is total: some entry always results, the fallback
being the whole line with absent version); and every call of `parse`
returns a value that is an error or a four-list result. -/
theorem claim_C10_theorem :
    (∀ st : PState, ∀ deps : Deps, ∀ cl : List Char, ∀ cat : Cat,
      st.cur = some cat → cl ≠ [] →
      hasSub depsWord (lowerChars cl) = false →
      ∃ st2 cat2 e, stepClean st deps cl = (st2, appendCat deps cat2 e)) ∧
    (∀ log : List Char, (∃ m, parseDependencySection log = PResult.err m) ∨
      (∃ d, parseDependencySection log = PResult.ok d)) := by
  constructor
  · intro st deps cl cat hcur hne hdw
    obtain ⟨cur, lm⟩ := st
    simp only at hcur
    subst hcur
    rw [stepClean_data cat lm deps cl hne hdw]
    exact ⟨_, _, _, rfl⟩
  · intro log
    cases h : parseDependencySection log with
    | err m => exact Or.inl ⟨m, rfl⟩
    | ok d => exact Or.inr ⟨d, rfl⟩

/-- Claim C10 witness: a malformed line under `too_old` still yields an
entry, and `parse` on an arbitrary string yields a result value. -/
theorem claim_C10_witness :
    (∃ st2 cat2 e, stepClean ⟨some Cat.too_old, none⟩ emptyDeps "weird line!!".toList
        = (st2, appendCat emptyDeps cat2 e)) ∧
    ((∃ m, parseDependencySection "xyz".toList = PResult.err m) ∨
     (∃ d, parseDependencySection "xyz".toList = PResult.ok d)) :=
  ⟨claim_C10_theorem.1 ⟨some Cat.too_old, none⟩ emptyDeps "weird line!!".toList
      Cat.too_old rfl (by decide) (by decide),
   claim_C10_theorem.2 "xyz".toList⟩

end GhDeps
